import Mathlib

/-!
# Verification of the Airflow DAG Runner (src/main.py)

Shallow embedding of the program in `src/main.py`.  The program is a CLI
client that authenticates against an Airflow instance, triggers a DAG run,
and then polls run status / task instances, incrementally printing task
logs until the run reaches a terminal state.

Modelling conventions:

* Python `None` for optional strings is `Option.none`; `dict.get` is the
  corresponding `Option`-returning access.
* Machine effects (HTTP) are inputs: a fetch that raises anywhere in the
  `requests` call chain (network error, `raise_for_status`, `.json()`)
  is the `none` / `fetchFail` case of the corresponding input.
* `print` calls are collected into lists of `Line` values; `lineText`
  recovers the printed text (the variable `str(e)` suffixes of the
  diagnostic messages are omitted from the text, the `Line` constructor
  records which `print` statement fired and with which arguments).
* Exceptions inside the embedded function bodies are `Except`-style
  results, propagated exactly where Python would propagate them and
  caught exactly where the source has `try/except`.
-/

/-- `str(x)` applied to an optional string, as an f-string renders it:
`None` prints as `"None"`. -/
def pyStr : Option String → String
  | none => "None"
  | some s => s

/-- Python truthiness of an optional string (`not cutoff` in line 102 of
`src/main.py`): `None` and `""` are falsy. -/
def pyFalsy : Option String → Bool
  | none => true
  | some s => s.isEmpty

/-- Python `x in xs` for an optional string against a list of strings
(`r.get("logger") in self.log_sources`, `task_state in [...]`):
`None` is never a member of a list of strings. -/
def optMem : Option String → List String → Bool
  | none, _ => false
  | some s, l => decide (s ∈ l)

/-- Lexicographic comparison of char lists by code point, executable by
kernel reduction (Python's `str` comparison is exactly this). -/
def strLtAux : List Char → List Char → Bool
  | [], [] => false
  | [], _ :: _ => true
  | _ :: _, [] => false
  | c :: cs, d :: ds => if c < d then true else if d < c then false else strLtAux cs ds

/-- Python `a < b` on strings (`r.get('timestamp') > cutoff` in line 102
of `src/main.py` is `strLt cutoff timestamp`).  Provably equivalent to
Mathlib's `String` order (`strLt_iff_lt` below). -/
def strLt (a b : String) : Bool := strLtAux a.data b.data

/-- ASCII lowercase of one character. -/
def charLower (c : Char) : Char :=
  if 'A' ≤ c ∧ c ≤ 'Z' then Char.ofNat (c.toNat + 32) else c

/-- ASCII uppercase of one character. -/
def charUpper (c : Char) : Char :=
  if 'a' ≤ c ∧ c ≤ 'z' then Char.ofNat (c.toNat - 32) else c

/-- Python `s.lower()` (`level.lower()` in line 115 of `src/main.py`);
the program's `level` values are ASCII, so the ASCII case map suffices. -/
def strLower (s : String) : String := ⟨s.data.map charLower⟩

/-- Python `s.upper()` (`level.upper()` in line 117 of `src/main.py`). -/
def strUpper (s : String) : String := ⟨s.data.map charUpper⟩

/-- `d.get(k)` on a Python dict modelled as an association list with the
most recent binding first; an absent key yields `None`, exactly like
`task_log_cutoffs.get(task_id)` (line 77 of `src/main.py`). -/
def dget (d : List (Option String × Option String)) (k : Option String) : Option String :=
  match d.lookup k with
  | some v => v
  | none => none

/-- `d[k] = v` on the dict: a new binding shadows the old one. -/
def dset (d : List (Option String × Option String)) (k : Option String) (v : Option String) :
    List (Option String × Option String) :=
  (k, v) :: d

/-- One element of a log entry's `error_detail` array (line 110 of
`src/main.py`): an object that may carry an `exc_value` field. -/
structure ErrDetail where
  exc_value : Option String
deriving DecidableEq, BEq

/-- One log entry, as taken from the `content` array of the log endpoint
response.  Each field models the corresponding JSON key; `none` is a
missing key (or JSON `null`). -/
structure LogItem where
  timestamp : Option String
  logger : Option String
  event : Option String
  level : Option String
  error_detail : Option (List ErrDetail)
deriving DecidableEq, BEq

/-- The per-entry test of the list comprehension in lines 101-102 of
`src/main.py`:

    not self.log_sources or r.get("logger") in self.log_sources
        and (not cutoff or r.get('timestamp') > cutoff)

Python precedence parses this as `A or (B and (C or D))`.  The result is
`.error ()` when evaluating the test raises: with a non-falsy cutoff and
the logger in the allowed sources, `r.get('timestamp') > cutoff`
compares `None > str` when the entry has no timestamp, a `TypeError`. -/
def keepTest (log_sources : List String) (cutoff : Option String) (r : LogItem) :
    Except Unit Bool :=
  if log_sources.isEmpty then .ok true
  else if optMem r.logger log_sources then
    match cutoff with
    | none => .ok true
    | some cv =>
      if cv.isEmpty then .ok true
      else
        match r.timestamp with
        | some t => .ok (strLt cv t)
        | none => .error ()
  else .ok false

/-- The list comprehension of lines 101-102 of `src/main.py`: the test is
evaluated once per entry, left to right, and the first raising entry
aborts the whole comprehension. -/
def filterLogs (log_sources : List String) (cutoff : Option String) :
    List LogItem → Except Unit (List LogItem)
  | [] => .ok []
  | r :: rs =>
    match keepTest log_sources cutoff r with
    | .error e => .error e
    | .ok b =>
      match filterLogs log_sources cutoff rs with
      | .error e => .error e
      | .ok rest => .ok (if b then r :: rest else rest)

/-- Total code-equivalent keep predicate: agrees with `keepTest` on every
entry on which the comprehension test does not raise.  Note the quirks of
the source faithfully reproduced: an empty source list bypasses everything,
and a falsy (`None` or empty-string) cutoff bypasses the timestamp
comparison. -/
def keepPred (log_sources : List String) (cutoff : Option String) (r : LogItem) : Bool :=
  log_sources.isEmpty ||
    (optMem r.logger log_sources &&
      (pyFalsy cutoff ||
        (match cutoff, r.timestamp with
         | some cv, some t => strLt cv t
         | _, _ => false)))

/-- The filter condition as the specification words it (§4.1 of spec.md):
an entry is kept iff no source-name filter is configured, or the logger is
in the allowed set and (no cutoff is set or the timestamp is strictly
greater than the cutoff).  This differs from `keepPred` precisely when the
cutoff is `some ""`: the spec treats an empty-string cutoff as set, the
code treats it as falsy. -/
def claimKeep (log_sources : List String) (cutoff : Option String) (r : LogItem) : Bool :=
  log_sources.isEmpty ||
    (optMem r.logger log_sources &&
      (cutoff.isNone ||
        (match cutoff, r.timestamp with
         | some cv, some t => strLt cv t
         | _, _ => false)))

/-- Lines 108-112 of `src/main.py`:

    error_detail = None
    try:
        error_detail = log_item['error_detail'][0]['exc_value']
    except (IndexError, KeyError, TypeError):
        pass

A missing `error_detail` key, an empty array, or a first element without
`exc_value` all leave `error_detail = None`. -/
def extractExcValue (r : LogItem) : Option String :=
  match r.error_detail with
  | none => none
  | some [] => none
  | some (d :: _) => d.exc_value

/-- Python truthiness of the extracted `error_detail` value in line 115. -/
def edTruthy : Option String → Bool
  | none => false
  | some v => !v.isEmpty

/-- One `print` call of the program.  Each constructor records which print
statement fired, with the values interpolated into its f-string; the
`str(e)` exception-description suffixes are omitted. -/
inductive Line where
  /-- Line 117: `print(f"{ts} - {task_id}: [{level.upper()}] {msg}")`. -/
  | logLine (task_id : Option String) (ts : String) (lvl : String) (msg : String)
  /-- Line 120: `print(f"Не удалось получить логи для задачи {task_id}: ...")`. -/
  | logFetchDiag (task_id : Option String)
  /-- Line 90: `print(f"Ошибка мониторинга: ...")`. -/
  | monitorDiag
  /-- Line 84: `print(f"DAG завершен со статусом: {state}")`. -/
  | completion (state : Option String)
  /-- Line 139: `print(f"DAG Run ID: {dag_run_id}")`. -/
  | runIdLine (run_id : Option String)
  /-- Line 142: `print(f"Ошибка: ...")`. -/
  | topError
deriving DecidableEq, BEq

/-- The text of a printed line (exception-description suffixes omitted). -/
def lineText : Line → String
  | .logLine tid ts lvl msg => ts ++ " - " ++ pyStr tid ++ ": [" ++ lvl ++ "] " ++ msg
  | .logFetchDiag tid => "Не удалось получить логи для задачи " ++ pyStr tid
  | .monitorDiag => "Ошибка мониторинга"
  | .completion st => "DAG завершен со статусом: " ++ pyStr st
  | .runIdLine r => "DAG Run ID: " ++ pyStr r
  | .topError => "Ошибка"

/-- Lines 104-117 of `src/main.py` for a single kept entry: reading
`log_item['timestamp']` raises `KeyError` when the key is missing, and
`level.lower()` raises `AttributeError` when `level` is `None`; both
propagate to the enclosing handler (`.error`).  Lookup failures inside the
inner `try` of lines 109-112 are swallowed by `extractExcValue`. -/
def renderItem (task_id : Option String) (r : LogItem) : Except Unit Line :=
  match r.timestamp with
  | none => .error ()
  | some ts =>
    let event := r.event
    let ed := extractExcValue r
    match r.level with
    | none => .error ()
    | some level =>
      let msg :=
        if strLower level == "error" && edTruthy ed then
          pyStr event ++ ": " ++ ed.getD ""
        else
          pyStr event
      .ok (.logLine task_id ts (strUpper level) msg)

/-- Total rendering of an entry, agreeing with `renderItem` whenever the
entry has a timestamp and a level. -/
def renderLineOf (task_id : Option String) (r : LogItem) : Line :=
  .logLine task_id (r.timestamp.getD "")
    (strUpper (r.level.getD ""))
    (if strLower (r.level.getD "") == "error" && edTruthy (extractExcValue r) then
      pyStr r.event ++ ": " ++ (extractExcValue r).getD ""
    else
      pyStr r.event)

/-- The `for log_item in filtered_logs:` loop of lines 103-117: each entry
is printed in order; when an entry raises, the lines already printed for
the earlier entries are kept (`.error` carries them). -/
def renderAll (task_id : Option String) : List LogItem → Except (List Line) (List Line)
  | [] => .ok []
  | r :: rs =>
    match renderItem task_id r with
    | .error _ => .error []
    | .ok line =>
      match renderAll task_id rs with
      | .error ls => .error (line :: ls)
      | .ok ls => .ok (line :: ls)

/-- Result of one `_print_task_logs` call: the lines printed by the call,
in order, and the returned value (`None` when the broad handler of lines
119-120 caught an exception). -/
structure TailResult where
  printed : List Line
  ret : Option String
deriving DecidableEq, BEq

/-- `_print_task_logs` (lines 93-120 of `src/main.py`).  The `fetch`
argument is the outcome of lines 98-100: `none` when the GET, the
`raise_for_status()`, the `.json()` parse raises, or when the body's
`content` is not a list of objects (in all of these cases the body of the
`try` raises and control reaches the handler with nothing printed, which
is what the `none` branch returns).  On `some content`:

* lines 101-102 build `filtered_logs` eagerly (`filterLogs`); a raise
  there reaches the handler with nothing printed;
* the print loop runs (`renderAll`); a raise there reaches the handler
  with the earlier lines already printed;
* line 118 returns the timestamp of the last kept entry, or the `cutoff`
  argument when nothing was kept;
* lines 119-120 print the diagnostic naming the task and fall off the
  end of the function, returning `None`. -/
def printTaskLogs (log_sources : List String) (task_id : Option String)
    (cutoff : Option String) (fetch : Option (List LogItem)) : TailResult :=
  match fetch with
  | none => { printed := [.logFetchDiag task_id], ret := none }
  | some content =>
    match filterLogs log_sources cutoff content with
    | .error _ => { printed := [.logFetchDiag task_id], ret := none }
    | .ok filtered =>
      match renderAll task_id filtered with
      | .error linesSoFar =>
        { printed := linesSoFar ++ [.logFetchDiag task_id], ret := none }
      | .ok lines =>
        { printed := lines
          ret :=
            match filtered.getLast? with
            | some last => last.timestamp
            | none => cutoff }

/-- `running_states` (line 54 of `src/main.py`). -/
def running_states : List String := ["running"]

/-- `completed_states` (line 53 of `src/main.py`). -/
def completed_states : List String := ["success", "failed"]

/-- One element of the `task_instances` array (lines 70-72): `task.get`
of the `task_id` and `state` keys. -/
structure TaskObs where
  task_id : Option String
  state : Option String
deriving DecidableEq, BEq

/-- The monitor's state variables (lines 55-56 of `src/main.py`):
`logged_tasks` (a set, modelled as a duplicate-free list) and
`task_log_cutoffs` (a dict). -/
structure MonState where
  logged_tasks : List (Option String)
  task_log_cutoffs : List (Option String × Option String)
deriving DecidableEq, BEq

/-- `logged_tasks = set(); task_log_cutoffs = dict()`. -/
def initMonState : MonState := { logged_tasks := [], task_log_cutoffs := [] }

/-- Result of processing the task list of one tick: the updated state, the
lines printed, and the task ids for which `_print_task_logs` was invoked
(in invocation order). -/
structure TickResult where
  st : MonState
  lines : List Line
  calls : List (Option String)

/-- The body of the `for task in tasks:` loop (lines 70-80 of
`src/main.py`) for a single task instance.  `logs` gives, per task id,
the outcome of that task's log fetch this tick. -/
def processTask (log_sources : List String) (logs : Option String → Option (List LogItem))
    (st : MonState) (task : TaskObs) : TickResult :=
  let tid := task.task_id
  if tid ∈ st.logged_tasks then { st := st, lines := [], calls := [] }
  else
    let r1 : TickResult :=
      if optMem task.state (running_states ++ completed_states) then
        let res := printTaskLogs log_sources tid (dget st.task_log_cutoffs tid) (logs tid)
        { st := { st with task_log_cutoffs := dset st.task_log_cutoffs tid res.ret }
          lines := res.printed
          calls := [tid] }
      else { st := st, lines := [], calls := [] }
    if optMem task.state completed_states then
      { r1 with st := { r1.st with logged_tasks := tid :: r1.st.logged_tasks } }
    else r1

/-- The whole `for task in tasks:` loop, sequentially. -/
def processTasks (log_sources : List String) (logs : Option String → Option (List LogItem))
    (st : MonState) : List TaskObs → TickResult
  | [] => { st := st, lines := [], calls := [] }
  | u :: rest =>
    let r1 := processTask log_sources logs st u
    let r2 := processTasks log_sources logs r1.st rest
    { st := r2.st, lines := r1.lines ++ r2.lines, calls := r1.calls ++ r2.calls }

/-- What the external world gives one iteration of the `while True:` loop
of `monitor_dag`:

* `fetchFail`: the status fetch (lines 61-63) or the task-list fetch
  (lines 66-68) raised — network error, bad status code or malformed body;
* `tick runState tasks logs`: both fetches succeeded, yielding the run
  `state`, the `task_instances` list, and per task the outcome of the
  log fetch that `_print_task_logs` would perform this tick. -/
inductive TickInput where
  | fetchFail
  | tick (runState : Option String) (tasks : List TaskObs)
      (logs : Option String → Option (List LogItem))

/-- How `monitor_dag` ended. -/
inductive Outcome where
  /-- Line 83-85: the run state was in `completed_states`; the loop broke
  normally after printing the completion message. -/
  | finished (state : Option String)
  /-- Lines 89-91: an exception was caught, the diagnostic printed, and
  the loop broke. -/
  | aborted
  /-- The supplied script of tick inputs was exhausted with the loop still
  running (the real loop would keep polling). -/
  | ranOut
deriving DecidableEq, BEq

/-- Trace entry for one executed loop iteration: monitor state before and
after, and the lines printed during the iteration. -/
structure TickTrace where
  pre : MonState
  post : MonState
  lines : List Line

/-- Result of running `monitor_dag` against a script of tick inputs. -/
structure RunResult where
  trace : List TickTrace
  outcome : Outcome

/-- `monitor_dag` (lines 49-91 of `src/main.py`), driven by a script of
tick inputs.  A `fetchFail` tick is caught by the handler of lines 89-91:
the diagnostic is printed and the loop breaks with nothing of the tick
processed.  Otherwise the task loop runs, and afterwards the run state is
checked against `completed_states` (lines 83-85). -/
def monitor_dag (log_sources : List String) (st : MonState) :
    List TickInput → RunResult
  | [] => { trace := [], outcome := .ranOut }
  | .fetchFail :: _ =>
    { trace := [{ pre := st, post := st, lines := [.monitorDiag] }], outcome := .aborted }
  | .tick runState tasks logs :: rest =>
    let r := processTasks log_sources logs st tasks
    if optMem runState completed_states then
      { trace := [{ pre := st, post := r.st, lines := r.lines ++ [.completion runState] }]
        outcome := .finished runState }
    else
      let k := monitor_dag log_sources r.st rest
      { trace := { pre := st, post := r.st, lines := r.lines } :: k.trace
        outcome := k.outcome }

/-- All lines printed during a monitor run, in order. -/
def RunResult.printed (r : RunResult) : List Line :=
  (r.trace.map TickTrace.lines).flatten

/-- The `__main__` block (lines 136-143 of `src/main.py`).  `auth` is the
outcome of `_get_access_token` as called by the constructor: `.error` when
any step of lines 26-31 raised (bad credentials giving a non-2xx status,
network error, or a body `.json()` cannot parse) — the wrapper of lines
32-33 re-raises, the constructor propagates, and the handler of lines
141-143 prints the error and calls `exit(1)`.  `trig` is likewise the
outcome of `trigger_dag` (lines 35-47): `.ok` carries
`response.json().get("dag_run_id")`.  On success the run id is printed
and `monitor_dag` runs; the process then falls off the end of the script
with exit code 0 (`monitor_dag` itself never raises). -/
def airflow_main (auth : Except Unit (Option String)) (trig : Except Unit (Option String))
    (log_sources : List String) (script : List TickInput) : Nat × List Line :=
  match auth with
  | .error _ => (1, [.topError])
  | .ok _tok =>
    match trig with
    | .error _ => (1, [.topError])
    | .ok run_id =>
      let r := monitor_dag log_sources initMonState script
      (0, .runIdLine run_id :: r.printed)

/-! ## Derived notions used by the statements -/

/-- Order on cutoffs: `none` (no cutoff yet) is below everything; two set
cutoffs compare as strings.  `cutLE a b` is "the cutoff did not decrease
from `a` to `b`". -/
def cutLE : Option String → Option String → Prop
  | none, _ => True
  | some _, none => False
  | some a, some b => a ≤ b

/-- Strictly-above relation on cutoffs: anything is strictly above an
absent cutoff. -/
def cutLT : Option String → Option String → Prop
  | none, _ => True
  | some _, none => False
  | some a, some b => a < b

/-- Timestamp of an entry, defaulting to `""` (only used on entries known
to have one). -/
def tsOf (r : LogItem) : String := r.timestamp.getD ""

/-- Entries ordered by timestamp (used to say a log list is
chronologically ordered in list order); stated via `strLt` so that it is
decidable by kernel reduction. -/
def tsLE (a b : LogItem) : Prop := strLt (tsOf b) (tsOf a) = false

instance (a b : LogItem) : Decidable (tsLE a b) :=
  inferInstanceAs (Decidable (strLt (tsOf b) (tsOf a) = false))

/-- A cutoff value the code never confuses with "no cutoff": not the
empty string. -/
def goodCut : Option String → Prop
  | none => True
  | some s => s ≠ ""

/-- A log entry that renders without raising and carries a non-empty
timestamp. -/
def WFItem (r : LogItem) : Prop :=
  r.timestamp.isSome = true ∧ tsOf r ≠ "" ∧ r.level.isSome = true

/-- A successful, well-formed, chronologically ordered log fetch. -/
def GoodLogs (o : Option (List LogItem)) : Prop :=
  ∃ entries, o = some entries ∧ (∀ r ∈ entries, WFItem r) ∧ entries.Pairwise tsLE

/-- A tick input on which the status and task-list fetches succeed and
every log fetch is a `GoodLogs`. -/
def GoodTick : TickInput → Prop
  | .fetchFail => False
  | .tick _ _ logs => ∀ u, GoodLogs (logs u)

/-- A tick input whose fetches succeed and whose run state is not
terminal (the loop continues past it). -/
def NonTerminalTick : TickInput → Prop
  | .fetchFail => False
  | .tick runState _ _ => optMem runState completed_states = false

/-- `isFetchFail` decides which constructor a tick input is. -/
def isFetchFail : TickInput → Bool
  | .fetchFail => true
  | .tick _ _ _ => false

/-- The timestamps of the log lines printed for a given task id, in print
order. -/
def printedTsFor (t : Option String) (lines : List Line) : List String :=
  lines.filterMap fun l =>
    match l with
    | .logLine tid ts _ _ => if tid = t then some ts else none
    | _ => none

/-- The rendered message of an entry as the specification words it
(§4.1 of spec.md): `event` normally, `event: exc_value` when the level is
`"error"` case-insensitively and a truthy nested value was extracted at
`error_detail[0].exc_value`. -/
def claimMessage (r : LogItem) : String :=
  match extractExcValue r with
  | some v =>
    if strLower (r.level.getD "") == "error" && !v.isEmpty then
      pyStr r.event ++ ": " ++ v
    else
      pyStr r.event
  | none => pyStr r.event

/-- `True` iff the body of `_print_task_logs` raises somewhere on this
input (so that control reaches the broad handler of lines 119-120): the
fetch itself fails, or the list comprehension raises, or the print loop
raises on some kept entry. -/
def tailRaises (log_sources : List String) (cutoff : Option String)
    (fetch : Option (List LogItem)) : Bool :=
  match fetch with
  | none => true
  | some content =>
    match filterLogs log_sources cutoff content with
    | .error _ => true
    | .ok filtered => !(filtered.all fun r => r.timestamp.isSome && r.level.isSome)

/-! ## Basic lemmas -/

theorem strLtAux_iff_lt : ∀ cs ds : List Char, strLtAux cs ds = true ↔ cs < ds := by
  intro cs
  induction cs with
  | nil =>
    intro ds
    cases ds with
    | nil =>
      simp only [strLtAux, Bool.false_eq_true, false_iff]
      exact nofun
    | cons d ds =>
      simp only [strLtAux, true_iff]
      exact List.Lex.nil
  | cons c cs ih =>
    intro ds
    cases ds with
    | nil =>
      simp only [strLtAux, Bool.false_eq_true, false_iff]
      exact nofun
    | cons d ds =>
      by_cases hcd : c < d
      · simp only [strLtAux, if_pos hcd, true_iff]
        exact List.Lex.rel hcd
      · by_cases hdc : d < c
        · simp only [strLtAux, if_neg hcd, if_pos hdc, Bool.false_eq_true, false_iff]
          intro h
          cases h with
          | cons h1 => exact absurd hdc (lt_irrefl _)
          | rel h1 => exact hcd h1
        · have hce : c = d := le_antisymm (not_lt.mp hdc) (not_lt.mp hcd)
          subst hce
          simp only [strLtAux, if_neg hcd]
          rw [ih ds]
          constructor
          · exact fun h => List.Lex.cons h
          · intro h
            cases h with
            | cons h1 => exact h1
            | rel h1 => exact absurd h1 hcd

theorem strLt_iff_lt (a b : String) : strLt a b = true ↔ a < b := by
  rw [String.lt_iff_toList_lt]
  exact strLtAux_iff_lt a.data b.data

theorem strLt_eq_false_iff (a b : String) : strLt a b = false ↔ b ≤ a := by
  rw [← not_lt, ← strLt_iff_lt]
  simp

theorem tsLE_iff (a b : LogItem) : tsLE a b ↔ tsOf a ≤ tsOf b :=
  strLt_eq_false_iff (tsOf b) (tsOf a)

theorem cutLE_refl (a : Option String) : cutLE a a := by
  cases a with
  | none => trivial
  | some x => exact le_refl x

theorem cutLE_trans {a b c : Option String} (h1 : cutLE a b) (h2 : cutLE b c) : cutLE a c := by
  cases a with
  | none => trivial
  | some x =>
    cases b with
    | none => exact absurd h1 (by simp [cutLE])
    | some y =>
      cases c with
      | none => exact absurd h2 (by simp [cutLE])
      | some z => exact le_trans (α := String) h1 h2

theorem cutLE_cutLT_trans {a b c : Option String} (h1 : cutLE a b) (h2 : cutLT b c) : cutLT a c := by
  cases a with
  | none => trivial
  | some x =>
    cases b with
    | none => exact absurd h1 (by simp [cutLE])
    | some y =>
      cases c with
      | none => exact absurd h2 (by simp [cutLT])
      | some z => exact lt_of_le_of_lt (α := String) h1 h2

theorem cutLT_cutLE {a b : Option String} (h : cutLT a b) : cutLE a b := by
  cases a with
  | none => trivial
  | some x =>
    cases b with
    | none => exact absurd h (by simp [cutLT])
    | some y => exact le_of_lt (α := String) h

theorem cutLE_some_cutLT {x y : String} {b : Option String}
    (h1 : cutLE (some x) b) (h2 : cutLT b (some y)) : x < y := by
  cases b with
  | none => exact absurd h1 (by simp [cutLE])
  | some p => exact lt_of_le_of_lt (α := String) h1 h2

theorem dget_dset_self (d : List (Option String × Option String)) (k v : Option String) :
    dget (dset d k v) k = v := by
  simp [dget, dset, List.lookup]

theorem dget_dset_ne (d : List (Option String × Option String)) {k k' : Option String}
    (v : Option String) (h : k' ≠ k) : dget (dset d k v) k' = dget d k' := by
  simp [dget, dset, List.lookup, beq_eq_false_iff_ne.mpr h]

/-! ## Filter lemmas -/

theorem keepTest_eq_ok (ls : List String) (c : Option String) (r : LogItem)
    (h : r.timestamp.isSome = true) : keepTest ls c r = .ok (keepPred ls c r) := by
  rcases hts : r.timestamp with _ | t
  · rw [hts] at h; simp at h
  · unfold keepTest keepPred
    cases hls : ls.isEmpty
    · cases hlog : optMem r.logger ls
      · simp [hlog]
      · cases c with
        | none => simp [hlog, pyFalsy]
        | some cv =>
          cases hcv : cv.isEmpty
          · simp [hlog, pyFalsy, hcv, hts]
          · simp [hlog, pyFalsy, hcv, hts]
    · simp

theorem filterLogs_eq_filter (ls : List String) (c : Option String) :
    ∀ entries : List LogItem, (∀ r ∈ entries, r.timestamp.isSome = true) →
      filterLogs ls c entries = .ok (entries.filter (keepPred ls c)) := by
  intro entries
  induction entries with
  | nil => intro _; rfl
  | cons r rs ih =>
    intro h
    have h1 := keepTest_eq_ok ls c r (h r (List.mem_cons_self r rs))
    have h2 := ih fun x hx => h x (List.mem_cons_of_mem _ hx)
    simp [filterLogs, h1, h2, List.filter_cons]

theorem filterLogs_empty_sources (c : Option String) :
    ∀ entries : List LogItem, filterLogs [] c entries = .ok entries := by
  intro entries
  induction entries with
  | nil => rfl
  | cons r rs ih => simp [filterLogs, keepTest, ih]

/-! ## Rendering lemmas -/

theorem renderItem_ok (tid : Option String) (r : LogItem)
    (hts : r.timestamp.isSome = true) (hlv : r.level.isSome = true) :
    renderItem tid r = .ok (renderLineOf tid r) := by
  rcases hts2 : r.timestamp with _ | ts
  · rw [hts2] at hts; simp at hts
  · rcases hlv2 : r.level with _ | lv
    · rw [hlv2] at hlv; simp at hlv
    · simp [renderItem, renderLineOf, hts2, hlv2]

theorem renderItem_error (tid : Option String) (r : LogItem)
    (h : (r.timestamp.isSome && r.level.isSome) = false) :
    renderItem tid r = .error () := by
  rcases hts : r.timestamp with _ | ts
  · simp [renderItem, hts]
  · rcases hlv : r.level with _ | lv
    · simp [renderItem, hts, hlv]
    · rw [hts, hlv] at h; simp at h

theorem renderAll_ok (tid : Option String) :
    ∀ l : List LogItem, (∀ r ∈ l, r.timestamp.isSome = true ∧ r.level.isSome = true) →
      renderAll tid l = .ok (l.map (renderLineOf tid)) := by
  intro l
  induction l with
  | nil => intro _; rfl
  | cons r rs ih =>
    intro h
    have h1 := renderItem_ok tid r (h r (List.mem_cons_self r rs)).1 (h r (List.mem_cons_self r rs)).2
    have h2 := ih fun x hx => h x (List.mem_cons_of_mem _ hx)
    simp [renderAll, h1, h2]

theorem renderAll_error (tid : Option String) :
    ∀ l : List LogItem, (l.all fun r => r.timestamp.isSome && r.level.isSome) = false →
      ∃ e, renderAll tid l = .error e := by
  intro l
  induction l with
  | nil => intro h; simp at h
  | cons r rs ih =>
    intro h
    rw [List.all_cons, Bool.and_eq_false_iff] at h
    rcases h with h | h
    · exact ⟨[], by simp [renderAll, renderItem_error tid r h]⟩
    · rcases ih h with ⟨e, he⟩
      cases h1 : renderItem tid r with
      | error u => exact ⟨[], by simp [renderAll, h1]⟩
      | ok line => exact ⟨line :: e, by simp [renderAll, h1, he]⟩

theorem printedTsFor_map_self (t : Option String) (F : List LogItem) :
    printedTsFor t (F.map (renderLineOf t)) = F.map tsOf := by
  induction F with
  | nil => rfl
  | cons r rs ih => simp [printedTsFor, renderLineOf] at ih ⊢; simpa [tsOf] using ih

theorem printedTsFor_map_ne {u t : Option String} (h : u ≠ t) (F : List LogItem) :
    printedTsFor u (F.map (renderLineOf t)) = [] := by
  have h2 : ¬(t = u) := fun hc => h hc.symm
  induction F with
  | nil => rfl
  | cons r rs ih =>
    simp [printedTsFor, renderLineOf, h2] at ih ⊢

/-! ## The Log Tailer on a successful, well-formed fetch -/

theorem mem_of_getLast?_eq {α : Type} : ∀ {l : List α} {a : α}, l.getLast? = some a → a ∈ l := by
  intro l
  induction l with
  | nil => intro a h; simp at h
  | cons x t ih =>
    intro a h
    cases t with
    | nil =>
      simp at h
      simp [h]
    | cons y t2 =>
      rw [List.getLast?_cons_cons] at h
      exact List.mem_cons_of_mem _ (ih h)

theorem pairwise_tsLE_getLast :
    ∀ {l : List LogItem}, l.Pairwise tsLE → ∀ {m : LogItem}, l.getLast? = some m →
      ∀ r ∈ l, tsOf r ≤ tsOf m := by
  intro l
  induction l with
  | nil => intro _ m h; simp at h
  | cons a t ih =>
    intro hp m hm r hr
    cases t with
    | nil =>
      simp at hm
      subst hm
      simp at hr
      subst hr
      exact le_refl _
    | cons b t2 =>
      rw [List.getLast?_cons_cons] at hm
      rcases List.pairwise_cons.mp hp with ⟨ha, h2⟩
      rcases List.mem_cons.mp hr with rfl | hr2
      · exact (tsLE_iff r m).mp (ha m (mem_of_getLast?_eq hm))
      · exact ih h2 hm r hr2

theorem printTaskLogs_eq (ls : List String) (tid : Option String) (c : Option String)
    (entries : List LogItem)
    (hts : ∀ r ∈ entries, r.timestamp.isSome = true)
    (hlv : ∀ r ∈ entries.filter (keepPred ls c), r.level.isSome = true) :
    printTaskLogs ls tid c (some entries) =
      { printed := (entries.filter (keepPred ls c)).map (renderLineOf tid)
        ret :=
          match (entries.filter (keepPred ls c)).getLast? with
          | some last => last.timestamp
          | none => c } := by
  have hf := filterLogs_eq_filter ls c entries hts
  have hr := renderAll_ok tid (entries.filter (keepPred ls c))
    (fun r hrm => ⟨hts r (List.mem_of_mem_filter hrm), hlv r hrm⟩)
  simp [printTaskLogs, hf, hr]

theorem isEmpty_false_of_ne_nil {ls : List String} (h : ls ≠ []) : ls.isEmpty = false := by
  cases ls with
  | nil => exact absurd rfl h
  | cons a t => rfl

theorem isEmpty_false_of_ne_empty {s : String} (h : s ≠ "") : s.isEmpty = false := by
  cases hv : s.isEmpty with
  | false => rfl
  | true => exact absurd ((String.isEmpty_iff s).mp hv) h

theorem keepPred_strict (ls : List String) (c : Option String) (r : LogItem)
    (hls : ls ≠ []) (hc : goodCut c) (hwf : WFItem r) (hk : keepPred ls c r = true) :
    cutLT c (some (tsOf r)) := by
  cases c with
  | none => trivial
  | some cv =>
    have hcv : cv.isEmpty = false := isEmpty_false_of_ne_empty hc
    rcases hmt : r.timestamp with _ | t
    · simp [WFItem, hmt] at hwf
    · unfold keepPred at hk
      rw [isEmpty_false_of_ne_nil hls, hmt] at hk
      simp [pyFalsy, hcv] at hk
      have hlt : cv < t := (strLt_iff_lt cv t).mp hk.2
      show cv < tsOf r
      rw [tsOf, hmt]
      exact hlt

theorem printTaskLogs_mono (ls : List String) (tid : Option String) (c : Option String)
    (entries : List LogItem) (hls : ls ≠ []) (hwf : ∀ r ∈ entries, WFItem r)
    (hsor : entries.Pairwise tsLE) (hc : goodCut c) :
    cutLE c (printTaskLogs ls tid c (some entries)).ret ∧
    goodCut (printTaskLogs ls tid c (some entries)).ret ∧
    (∀ ts ∈ printedTsFor tid (printTaskLogs ls tid c (some entries)).printed,
      cutLT c (some ts) ∧ cutLE (some ts) (printTaskLogs ls tid c (some entries)).ret) ∧
    (∀ u, u ≠ tid → printedTsFor u (printTaskLogs ls tid c (some entries)).printed = []) := by
  have hts : ∀ r ∈ entries, r.timestamp.isSome = true := fun r hr => (hwf r hr).1
  have hlv : ∀ r ∈ entries.filter (keepPred ls c), r.level.isSome = true :=
    fun r hr => (hwf r (List.mem_of_mem_filter hr)).2.2
  have heq := printTaskLogs_eq ls tid c entries hts hlv
  have hFsor : (entries.filter (keepPred ls c)).Pairwise tsLE :=
    List.Pairwise.sublist (List.filter_sublist entries) hsor
  have hkept : ∀ r ∈ entries.filter (keepPred ls c), cutLT c (some (tsOf r)) := by
    intro r hr
    exact keepPred_strict ls c r hls hc (hwf r (List.mem_of_mem_filter hr))
      (List.mem_filter.mp hr).2
  rw [heq]
  cases hlast : (entries.filter (keepPred ls c)).getLast? with
  | none =>
    have hFnil : entries.filter (keepPred ls c) = [] := List.getLast?_eq_none_iff.mp hlast
    rw [hFnil]
    refine ⟨cutLE_refl c, hc, ?_, ?_⟩
    · intro ts hts2
      simp [printedTsFor] at hts2
    · intro u _
      rfl
  | some m =>
    have hmem : m ∈ entries.filter (keepPred ls c) := mem_of_getLast?_eq hlast
    have hmax : ∀ r ∈ entries.filter (keepPred ls c), tsOf r ≤ tsOf m :=
      pairwise_tsLE_getLast hFsor hlast
    have hmwf : WFItem m := hwf m (List.mem_of_mem_filter hmem)
    have hmts : m.timestamp = some (tsOf m) := by
      rcases hmt : m.timestamp with _ | t
      · simp [WFItem, hmt] at hmwf
      · simp [tsOf, hmt]
    simp only [hmts]
    refine ⟨cutLT_cutLE (hkept m hmem), hmwf.2.1, ?_, ?_⟩
    · intro ts hts2
      rw [printedTsFor_map_self] at hts2
      rcases List.mem_map.mp hts2 with ⟨r, hrmem, rfl⟩
      exact ⟨hkept r hrmem, hmax r hrmem⟩
    · intro u hu
      exact printedTsFor_map_ne hu _

/-! ## Per-task processing lemmas -/

theorem optMem_append (s : Option String) (l1 l2 : List String) :
    optMem s (l1 ++ l2) = (optMem s l1 || optMem s l2) := by
  cases s with
  | none => rfl
  | some v => simp [optMem, List.mem_append]

theorem eligible_of_completed {s : Option String} (h : optMem s completed_states = true) :
    optMem s (running_states ++ completed_states) = true := by
  rw [optMem_append, h, Bool.or_true]

theorem not_completed_of_not_eligible {s : Option String}
    (h : optMem s (running_states ++ completed_states) = false) :
    optMem s completed_states = false := by
  rw [optMem_append, Bool.or_eq_false_iff] at h
  exact h.2

theorem processTask_logged_tasks_eq (ls : List String)
    (logs : Option String → Option (List LogItem)) (st : MonState) (task : TaskObs) :
    (processTask ls logs st task).st.logged_tasks =
      if task.task_id ∈ st.logged_tasks then st.logged_tasks
      else if optMem task.state completed_states then task.task_id :: st.logged_tasks
      else st.logged_tasks := by
  unfold processTask
  by_cases h : task.task_id ∈ st.logged_tasks
  · simp [h]
  · by_cases hterm : optMem task.state completed_states = true
    · simp [h, hterm, eligible_of_completed hterm]
    · rw [Bool.not_eq_true] at hterm
      by_cases helig : optMem task.state (running_states ++ completed_states) = true
      · simp [h, hterm, helig]
      · rw [Bool.not_eq_true] at helig
        simp [h, hterm, helig]

theorem processTask_calls_eq (ls : List String)
    (logs : Option String → Option (List LogItem)) (st : MonState) (task : TaskObs) :
    (processTask ls logs st task).calls =
      if task.task_id ∈ st.logged_tasks then []
      else if optMem task.state (running_states ++ completed_states) then [task.task_id]
      else [] := by
  unfold processTask
  by_cases h : task.task_id ∈ st.logged_tasks
  · simp [h]
  · by_cases helig : optMem task.state (running_states ++ completed_states) = true
    · by_cases hterm : optMem task.state completed_states = true
      · simp [h, helig, hterm]
      · rw [Bool.not_eq_true] at hterm
        simp [h, helig, hterm]
    · rw [Bool.not_eq_true] at helig
      simp [h, helig, not_completed_of_not_eligible helig]

theorem processTask_lines_eq (ls : List String)
    (logs : Option String → Option (List LogItem)) (st : MonState) (task : TaskObs) :
    (processTask ls logs st task).lines =
      if task.task_id ∈ st.logged_tasks then []
      else if optMem task.state (running_states ++ completed_states) then
        (printTaskLogs ls task.task_id (dget st.task_log_cutoffs task.task_id)
          (logs task.task_id)).printed
      else [] := by
  unfold processTask
  by_cases h : task.task_id ∈ st.logged_tasks
  · simp [h]
  · by_cases helig : optMem task.state (running_states ++ completed_states) = true
    · by_cases hterm : optMem task.state completed_states = true
      · simp [h, helig, hterm]
      · rw [Bool.not_eq_true] at hterm
        simp [h, helig, hterm]
    · rw [Bool.not_eq_true] at helig
      simp [h, helig, not_completed_of_not_eligible helig]

theorem processTask_cutoffs_eq (ls : List String)
    (logs : Option String → Option (List LogItem)) (st : MonState) (task : TaskObs) :
    (processTask ls logs st task).st.task_log_cutoffs =
      if task.task_id ∈ st.logged_tasks then st.task_log_cutoffs
      else if optMem task.state (running_states ++ completed_states) then
        dset st.task_log_cutoffs task.task_id
          (printTaskLogs ls task.task_id (dget st.task_log_cutoffs task.task_id)
            (logs task.task_id)).ret
      else st.task_log_cutoffs := by
  unfold processTask
  by_cases h : task.task_id ∈ st.logged_tasks
  · simp [h]
  · by_cases helig : optMem task.state (running_states ++ completed_states) = true
    · by_cases hterm : optMem task.state completed_states = true
      · simp [h, helig, hterm]
      · rw [Bool.not_eq_true] at hterm
        simp [h, helig, hterm]
    · rw [Bool.not_eq_true] at helig
      simp [h, helig, not_completed_of_not_eligible helig]

theorem printedTsFor_append (t : Option String) (l1 l2 : List Line) :
    printedTsFor t (l1 ++ l2) = printedTsFor t l1 ++ printedTsFor t l2 := by
  simp [printedTsFor, List.filterMap_append]

theorem processTask_mono (ls : List String) (logs : Option String → Option (List LogItem))
    (st : MonState) (task : TaskObs) (hls : ls ≠ []) (hlogs : ∀ u, GoodLogs (logs u))
    (hgood : ∀ t, goodCut (dget st.task_log_cutoffs t)) :
    (∀ t, cutLE (dget st.task_log_cutoffs t)
      (dget (processTask ls logs st task).st.task_log_cutoffs t)) ∧
    (∀ t, goodCut (dget (processTask ls logs st task).st.task_log_cutoffs t)) ∧
    (∀ t ts, ts ∈ printedTsFor t (processTask ls logs st task).lines →
      cutLT (dget st.task_log_cutoffs t) (some ts) ∧
      cutLE (some ts) (dget (processTask ls logs st task).st.task_log_cutoffs t)) := by
  rw [processTask_cutoffs_eq, processTask_lines_eq]
  by_cases h : task.task_id ∈ st.logged_tasks
  · simp only [h, if_true]
    exact ⟨fun t => cutLE_refl _, hgood, fun t ts hts => by simp [printedTsFor] at hts⟩
  · simp only [h, if_false]
    by_cases helig : optMem task.state (running_states ++ completed_states) = true
    · simp only [helig, if_true]
      rcases hlogs task.task_id with ⟨entries, hfe, hwfl, hsor⟩
      rw [hfe]
      have hm := printTaskLogs_mono ls task.task_id (dget st.task_log_cutoffs task.task_id)
        entries hls hwfl hsor (hgood task.task_id)
      refine ⟨?_, ?_, ?_⟩
      · intro t
        by_cases ht : t = task.task_id
        · subst ht
          rw [dget_dset_self]
          exact hm.1
        · rw [dget_dset_ne _ _ ht]
          exact cutLE_refl _
      · intro t
        by_cases ht : t = task.task_id
        · subst ht
          rw [dget_dset_self]
          exact hm.2.1
        · rw [dget_dset_ne _ _ ht]
          exact hgood t
      · intro t ts hts
        by_cases ht : t = task.task_id
        · subst ht
          rw [dget_dset_self]
          exact hm.2.2.1 ts hts
        · rw [hm.2.2.2 t ht] at hts
          simp at hts
    · rw [Bool.not_eq_true] at helig
      simp only [helig, Bool.false_eq_true, if_false]
      exact ⟨fun t => cutLE_refl _, hgood, fun t ts hts => by simp [printedTsFor] at hts⟩

theorem processTasks_mono (ls : List String) (logs : Option String → Option (List LogItem))
    (hls : ls ≠ []) (hlogs : ∀ u, GoodLogs (logs u)) :
    ∀ (tasks : List TaskObs) (st : MonState),
      (∀ t, goodCut (dget st.task_log_cutoffs t)) →
      (∀ t, cutLE (dget st.task_log_cutoffs t)
        (dget (processTasks ls logs st tasks).st.task_log_cutoffs t)) ∧
      (∀ t, goodCut (dget (processTasks ls logs st tasks).st.task_log_cutoffs t)) ∧
      (∀ t ts, ts ∈ printedTsFor t (processTasks ls logs st tasks).lines →
        cutLT (dget st.task_log_cutoffs t) (some ts) ∧
        cutLE (some ts) (dget (processTasks ls logs st tasks).st.task_log_cutoffs t)) := by
  intro tasks
  induction tasks with
  | nil =>
    intro st hgood
    exact ⟨fun t => cutLE_refl _, hgood,
      fun t ts hts => by simp [processTasks, printedTsFor] at hts⟩
  | cons u rest ih =>
    intro st hgood
    have h1 := processTask_mono ls logs st u hls hlogs hgood
    have h2 := ih (processTask ls logs st u).st h1.2.1
    refine ⟨?_, ?_, ?_⟩
    · intro t
      exact cutLE_trans (h1.1 t) (h2.1 t)
    · intro t
      exact h2.2.1 t
    · intro t ts hts
      simp only [processTasks] at hts ⊢
      rw [printedTsFor_append, List.mem_append] at hts
      rcases hts with hts | hts
      · rcases h1.2.2 t ts hts with ⟨ha, hb⟩
        exact ⟨ha, cutLE_trans hb (h2.1 t)⟩
      · rcases h2.2.2 t ts hts with ⟨ha, hb⟩
        exact ⟨cutLE_cutLT_trans (h1.1 t) ha, hb⟩

/-! ## Monitor loop invariants -/

theorem printedTsFor_completion (t : Option String) (rs : Option String) :
    printedTsFor t [Line.completion rs] = [] := rfl

theorem monitor_dag_mono (ls : List String) (hls : ls ≠ []) :
    ∀ (script : List TickInput) (st : MonState),
      (∀ inp ∈ script, GoodTick inp) →
      (∀ t, goodCut (dget st.task_log_cutoffs t)) →
      (∀ t, ((dget st.task_log_cutoffs t) ::
        (monitor_dag ls st script).trace.map
          (fun e => dget e.post.task_log_cutoffs t)).Pairwise cutLE) ∧
      (∀ e ∈ (monitor_dag ls st script).trace, ∀ t,
        cutLE (dget st.task_log_cutoffs t) (dget e.pre.task_log_cutoffs t)) ∧
      (∀ e ∈ (monitor_dag ls st script).trace, ∀ t ts, ts ∈ printedTsFor t e.lines →
        cutLT (dget e.pre.task_log_cutoffs t) (some ts) ∧
        cutLE (some ts) (dget e.post.task_log_cutoffs t)) ∧
      (∀ t, ((monitor_dag ls st script).trace.map
        (fun e => printedTsFor t e.lines)).Pairwise
          (fun L1 L2 => ∀ a ∈ L1, ∀ b ∈ L2, a < b)) := by
  intro script
  induction script with
  | nil =>
    intro st hscript hgood
    refine ⟨?_, ?_, ?_, ?_⟩
    · intro t
      simp [monitor_dag]
    · intro e he
      simp [monitor_dag] at he
    · intro e he
      simp [monitor_dag] at he
    · intro t
      simp [monitor_dag]
  | cons inp rest ih =>
    intro st hscript hgood
    cases inp with
    | fetchFail => exact (hscript _ (List.mem_cons_self _ _)).elim
    | tick rs tasks logs =>
      have hgt : ∀ u, GoodLogs (logs u) := hscript _ (List.mem_cons_self _ _)
      have hpm := processTasks_mono ls logs hls hgt tasks st hgood
      by_cases hterm : optMem rs completed_states = true
      · simp only [monitor_dag, hterm, if_true]
        refine ⟨?_, ?_, ?_, ?_⟩
        · intro t
          simp only [List.map_cons, List.map_nil]
          exact List.pairwise_cons.mpr
            ⟨fun y hy => by
              rcases List.mem_singleton.mp hy with rfl
              exact hpm.1 t,
             List.pairwise_singleton _ _⟩
        · intro e he t
          rcases List.mem_singleton.mp he with rfl
          exact cutLE_refl _
        · intro e he t ts hts
          rcases List.mem_singleton.mp he with rfl
          simp only at hts
          rw [printedTsFor_append, printedTsFor_completion, List.append_nil] at hts
          exact hpm.2.2 t ts hts
        · intro t
          simp only [List.map_cons, List.map_nil]
          exact List.pairwise_singleton _ _
      · rw [Bool.not_eq_true] at hterm
        simp only [monitor_dag, hterm, Bool.false_eq_true, if_false]
        have ihr := ih (processTasks ls logs st tasks).st
          (fun inp2 h2 => hscript _ (List.mem_cons_of_mem _ h2)) hpm.2.1
        refine ⟨?_, ?_, ?_, ?_⟩
        · intro t
          simp only [List.map_cons]
          refine List.pairwise_cons.mpr ⟨?_, ihr.1 t⟩
          intro y hy
          rcases List.mem_cons.mp hy with rfl | hy2
          · exact hpm.1 t
          · rcases List.mem_map.mp hy2 with ⟨e2, he2, rfl⟩
            have hhead := (List.pairwise_cons.mp (ihr.1 t)).1
            exact cutLE_trans (hpm.1 t) (hhead _ (List.mem_map_of_mem _ he2))
        · intro e he t
          rcases List.mem_cons.mp he with rfl | he2
          · exact cutLE_refl _
          · exact cutLE_trans (hpm.1 t) (ihr.2.1 e he2 t)
        · intro e he t ts hts
          rcases List.mem_cons.mp he with rfl | he2
          · exact hpm.2.2 t ts hts
          · exact ihr.2.2.1 e he2 t ts hts
        · intro t
          simp only [List.map_cons]
          refine List.pairwise_cons.mpr ⟨?_, ihr.2.2.2 t⟩
          intro L2 hL2 a ha b hb
          rcases List.mem_map.mp hL2 with ⟨e2, he2, rfl⟩
          have h1 : cutLE (some a) (dget (processTasks ls logs st tasks).st.task_log_cutoffs t) :=
            (hpm.2.2 t a ha).2
          have h2 : cutLE (dget (processTasks ls logs st tasks).st.task_log_cutoffs t)
              (dget e2.pre.task_log_cutoffs t) := ihr.2.1 e2 he2 t
          have h3 : cutLT (dget e2.pre.task_log_cutoffs t) (some b) :=
            (ihr.2.2.1 e2 he2 t b hb).1
          exact cutLE_some_cutLT (cutLE_trans h1 h2) h3

/-! ## Logged-tasks set lemmas -/

theorem processTask_logged_iff (ls : List String)
    (logs : Option String → Option (List LogItem)) (st : MonState) (task : TaskObs)
    (tid : Option String) :
    tid ∈ (processTask ls logs st task).st.logged_tasks ↔
      tid ∈ st.logged_tasks ∨
        (task.task_id = tid ∧ optMem task.state completed_states = true) := by
  rw [processTask_logged_tasks_eq]
  by_cases h : task.task_id ∈ st.logged_tasks
  · rw [if_pos h]
    constructor
    · exact Or.inl
    · rintro (hm | ⟨rfl, _⟩)
      · exact hm
      · exact h
  · rw [if_neg h]
    by_cases hterm : optMem task.state completed_states = true
    · rw [if_pos hterm, List.mem_cons]
      constructor
      · rintro (rfl | hm)
        · exact Or.inr ⟨rfl, hterm⟩
        · exact Or.inl hm
      · rintro (hm | ⟨rfl, _⟩)
        · exact Or.inr hm
        · exact Or.inl rfl
    · rw [Bool.not_eq_true] at hterm
      rw [hterm]
      simp only [Bool.false_eq_true, if_false]
      constructor
      · exact Or.inl
      · rintro (hm | ⟨rfl, hterm2⟩)
        · exact hm
        · exact hterm2.elim

theorem processTask_logged_subset (ls : List String)
    (logs : Option String → Option (List LogItem)) (st : MonState) (task : TaskObs) :
    st.logged_tasks ⊆ (processTask ls logs st task).st.logged_tasks := by
  intro x hx
  exact (processTask_logged_iff ls logs st task x).mpr (Or.inl hx)

theorem processTasks_logged_iff (ls : List String)
    (logs : Option String → Option (List LogItem)) :
    ∀ (tasks : List TaskObs) (st : MonState) (tid : Option String),
      tid ∈ (processTasks ls logs st tasks).st.logged_tasks ↔
        tid ∈ st.logged_tasks ∨
          ∃ u ∈ tasks, u.task_id = tid ∧ optMem u.state completed_states = true := by
  intro tasks
  induction tasks with
  | nil =>
    intro st tid
    simp [processTasks]
  | cons u rest ih =>
    intro st tid
    simp only [processTasks]
    rw [ih, processTask_logged_iff]
    simp only [List.mem_cons]
    constructor
    · rintro ((hm | ⟨rfl, hterm⟩) | ⟨v, hv, hvt⟩)
      · exact Or.inl hm
      · exact Or.inr ⟨u, Or.inl rfl, rfl, hterm⟩
      · exact Or.inr ⟨v, Or.inr hv, hvt⟩
    · rintro (hm | ⟨v, (rfl | hv), hvt⟩)
      · exact Or.inl (Or.inl hm)
      · exact Or.inl (Or.inr hvt)
      · exact Or.inr ⟨v, hv, hvt⟩

theorem processTask_logged_nodup (ls : List String)
    (logs : Option String → Option (List LogItem)) (st : MonState) (task : TaskObs)
    (h : st.logged_tasks.Nodup) : (processTask ls logs st task).st.logged_tasks.Nodup := by
  rw [processTask_logged_tasks_eq]
  by_cases hm : task.task_id ∈ st.logged_tasks
  · rw [if_pos hm]; exact h
  · rw [if_neg hm]
    by_cases hterm : optMem task.state completed_states = true
    · rw [if_pos hterm]
      exact List.Nodup.cons hm h
    · rw [Bool.not_eq_true] at hterm
      rw [hterm]
      simp only [Bool.false_eq_true, if_false]
      exact h

theorem processTasks_logged_nodup (ls : List String)
    (logs : Option String → Option (List LogItem)) :
    ∀ (tasks : List TaskObs) (st : MonState), st.logged_tasks.Nodup →
      (processTasks ls logs st tasks).st.logged_tasks.Nodup := by
  intro tasks
  induction tasks with
  | nil => intro st h; exact h
  | cons u rest ih =>
    intro st h
    exact ih _ (processTask_logged_nodup ls logs st u h)

theorem processTask_skip (ls : List String)
    (logs : Option String → Option (List LogItem)) (st : MonState) (task : TaskObs)
    (tid : Option String) (h : tid ∈ st.logged_tasks) :
    tid ∉ (processTask ls logs st task).calls := by
  rw [processTask_calls_eq]
  by_cases hm : task.task_id ∈ st.logged_tasks
  · rw [if_pos hm]; exact List.not_mem_nil tid
  · rw [if_neg hm]
    by_cases helig : optMem task.state (running_states ++ completed_states) = true
    · rw [if_pos helig]
      intro hc
      rcases List.mem_singleton.mp hc with rfl
      exact hm h
    · rw [Bool.not_eq_true] at helig
      rw [helig]
      simp only [Bool.false_eq_true, if_false]
      exact List.not_mem_nil tid

theorem processTasks_skip (ls : List String)
    (logs : Option String → Option (List LogItem)) :
    ∀ (tasks : List TaskObs) (st : MonState) (tid : Option String),
      tid ∈ st.logged_tasks → tid ∉ (processTasks ls logs st tasks).calls := by
  intro tasks
  induction tasks with
  | nil =>
    intro st tid _
    exact List.not_mem_nil tid
  | cons u rest ih =>
    intro st tid h
    simp only [processTasks, List.mem_append]
    rintro (hc | hc)
    · exact processTask_skip ls logs st u tid h hc
    · exact ih _ tid (processTask_logged_subset ls logs st u h) hc

theorem processTasks_called_of_added (ls : List String)
    (logs : Option String → Option (List LogItem)) :
    ∀ (tasks : List TaskObs) (st : MonState) (tid : Option String),
      tid ∉ st.logged_tasks → tid ∈ (processTasks ls logs st tasks).st.logged_tasks →
        tid ∈ (processTasks ls logs st tasks).calls := by
  intro tasks
  induction tasks with
  | nil =>
    intro st tid hn hm
    exact absurd hm hn
  | cons u rest ih =>
    intro st tid hn hm
    simp only [processTasks, List.mem_append]
    by_cases h1 : tid ∈ (processTask ls logs st u).st.logged_tasks
    · rcases (processTask_logged_iff ls logs st u tid).mp h1 with hm2 | ⟨heq, hterm⟩
      · exact absurd hm2 hn
      · left
        rw [processTask_calls_eq, if_neg (heq ▸ hn), if_pos (eligible_of_completed hterm), heq]
        exact List.mem_singleton_self tid
    · right
      simp only [processTasks] at hm
      exact ih _ tid h1 hm

/-! ## Monitor control-flow lemmas -/

theorem monitor_dag_append (ls : List String) :
    ∀ (pre : List TickInput) (st : MonState) (s : List TickInput),
      (∀ inp ∈ pre, NonTerminalTick inp) →
      ∃ st2 tr0, tr0.length = pre.length ∧
        monitor_dag ls st (pre ++ s) =
          { trace := tr0 ++ (monitor_dag ls st2 s).trace
            outcome := (monitor_dag ls st2 s).outcome } := by
  intro pre
  induction pre with
  | nil =>
    intro st s _
    exact ⟨st, [], rfl, by simp⟩
  | cons inp pre2 ih =>
    intro st s h
    have h0 := h inp (List.mem_cons_self _ _)
    cases inp with
    | fetchFail => exact h0.elim
    | tick rs tasks logs =>
      have h02 : optMem rs completed_states = false := h0
      rcases ih (processTasks ls logs st tasks).st s
        (fun i hi => h _ (List.mem_cons_of_mem _ hi)) with ⟨st2, tr0, hlen, heq⟩
      refine ⟨st2,
        { pre := st, post := (processTasks ls logs st tasks).st
          lines := (processTasks ls logs st tasks).lines } :: tr0, by simp [hlen], ?_⟩
      rw [List.cons_append]
      simp only [monitor_dag, h02, Bool.false_eq_true, if_false]
      rw [heq]
      simp

theorem monitor_no_abort (ls : List String) :
    ∀ (script : List TickInput) (st : MonState),
      (∀ inp ∈ script, isFetchFail inp = false) →
      ((monitor_dag ls st script).outcome == Outcome.aborted) = false := by
  intro script
  induction script with
  | nil => intro st _; rfl
  | cons inp rest ih =>
    intro st h
    cases inp with
    | fetchFail => exact absurd (h _ (List.mem_cons_self _ _)) (by simp [isFetchFail])
    | tick rs tasks logs =>
      by_cases hterm : optMem rs completed_states = true
      · simp only [monitor_dag, hterm, if_true]
        rfl
      · rw [Bool.not_eq_true] at hterm
        simp only [monitor_dag, hterm, Bool.false_eq_true, if_false]
        exact ih _ (fun i hi => h _ (List.mem_cons_of_mem _ hi))

/-! ## Rendering text and raise-path lemmas -/

theorem lineText_renderLineOf (tid : Option String) (r : LogItem) :
    lineText (renderLineOf tid r) =
      (r.timestamp.getD "") ++ " - " ++ pyStr tid ++ ": [" ++ strUpper (r.level.getD "")
        ++ "] " ++ claimMessage r := by
  unfold lineText renderLineOf claimMessage
  cases hed : extractExcValue r with
  | none => simp [edTruthy]
  | some v => simp [edTruthy]

theorem printTaskLogs_raises (ls : List String) (tid : Option String) (c : Option String)
    (fetch : Option (List LogItem)) (h : tailRaises ls c fetch = true) :
    (printTaskLogs ls tid c fetch).ret = none ∧
    (printTaskLogs ls tid c fetch).printed.getLast? = some (.logFetchDiag tid) := by
  cases fetch with
  | none => exact ⟨rfl, rfl⟩
  | some content =>
    have h2 : (match filterLogs ls c content with
      | Except.error _ => true
      | Except.ok filtered =>
        !filtered.all fun r => r.timestamp.isSome && r.level.isSome) = true := h
    cases hf : filterLogs ls c content with
    | error e => exact ⟨by simp [printTaskLogs, hf], by simp [printTaskLogs, hf]⟩
    | ok filtered =>
      rw [hf] at h2
      simp only [Bool.not_eq_true'] at h2
      rcases renderAll_error tid filtered h2 with ⟨e, he⟩
      exact ⟨by simp [printTaskLogs, hf, he],
        by simp [printTaskLogs, hf, he, List.getLast?_concat]⟩

theorem processTask_stores_none (ls : List String)
    (logs : Option String → Option (List LogItem)) (st : MonState) (task : TaskObs)
    (hnl : task.task_id ∉ st.logged_tasks)
    (helig : optMem task.state (running_states ++ completed_states) = true)
    (hr : tailRaises ls (dget st.task_log_cutoffs task.task_id) (logs task.task_id) = true) :
    dget (processTask ls logs st task).st.task_log_cutoffs task.task_id = none := by
  rw [processTask_cutoffs_eq, if_neg hnl, if_pos helig, dget_dset_self]
  exact (printTaskLogs_raises ls task.task_id _ _ hr).1

/-! ## Claim theorems -/

/-- C1 counterexample: on a failed log fetch with previous cutoff `"c0"`,
`_print_task_logs` does not return the previous cutoff unchanged — it
returns `None` (the `except` branch of lines 119-120 has no `return`). -/
theorem C1_cex :
    ((printTaskLogs ["root", "task"] (some "A") (some "c0") none).ret == some "c0") = false ∧
    (printTaskLogs ["root", "task"] (some "A") (some "c0") none).ret = none :=
  ⟨rfl, rfl⟩

/-- C1 (amended): for every call of the Log Tailer in which the log fetch
fails, the failure is caught, a diagnostic naming the task is printed,
`None` is returned (resetting the stored cutoff, rather than returning
the previous cutoff unchanged), and the Monitor loop is not aborted by
this failure. -/
theorem C1_thm (ls : List String) (tid : Option String) (c : Option String) :
    printTaskLogs ls tid c none = { printed := [.logFetchDiag tid], ret := none } ∧
    ∀ (st : MonState) (rs : Option String) (tasks : List TaskObs)
      (logs : Option String → Option (List LogItem)),
      ((monitor_dag ls st [.tick rs tasks logs]).outcome == Outcome.aborted) = false := by
  refine ⟨rfl, ?_⟩
  intro st rs tasks logs
  apply monitor_no_abort
  intro inp hinp
  rcases List.mem_singleton.mp hinp with rfl
  rfl

/-- C2 counterexample: with the allowed-source set `["task"]` and the
cutoff set to the empty string, an entry whose timestamp is `""` is kept
by the code (Python's `not cutoff` treats `""` as falsy), although the
claim's condition (cutoff is set, and `"" > ""` is false) says it must be
dropped. -/
theorem C2_cex :
    filterLogs ["task"] (some "") [⟨some "", some "task", some "x", some "info", none⟩] =
      .ok [⟨some "", some "task", some "x", some "info", none⟩] ∧
    claimKeep ["task"] (some "")
      (⟨some "", some "task", some "x", some "info", none⟩ : LogItem) = false :=
  ⟨rfl, rfl⟩

/-- C2 (amended): for every log entry list in which each entry has a
timestamp, every allowed-source set and every optional cutoff, the Log
Tailer keeps an entry iff either no source-name filter is configured, or
the entry's logger is in the allowed-source set AND (no cutoff is set OR
the cutoff is the empty string OR the entry's timestamp is strictly
greater than the cutoff) — this is `keepPred`; in particular, with an
empty source filter all entries are kept regardless of cutoff. -/
theorem C2_thm (ls : List String) (c : Option String) (entries : List LogItem)
    (hts : ∀ r ∈ entries, r.timestamp.isSome = true) :
    filterLogs ls c entries = .ok (entries.filter (keepPred ls c)) ∧
    filterLogs [] c entries = .ok entries :=
  ⟨filterLogs_eq_filter ls c entries hts, filterLogs_empty_sources c entries⟩

/-- C2 witness: the specification's own examples — with sources `["task"]`
and no cutoff, only the `"task"`-logger entry is kept; with empty sources
both entries are kept. -/
theorem C2_witness :
    filterLogs ["task"] none
        [⟨some "t1", some "task", some "x", some "info", none⟩,
         ⟨some "t2", some "root", some "y", some "info", none⟩] =
      .ok ([⟨some "t1", some "task", some "x", some "info", none⟩,
        ⟨some "t2", some "root", some "y", some "info", none⟩].filter
          (keepPred ["task"] none)) ∧
    filterLogs [] none
        [⟨some "t1", some "task", some "x", some "info", none⟩,
         ⟨some "t2", some "root", some "y", some "info", none⟩] =
      .ok [⟨some "t1", some "task", some "x", some "info", none⟩,
        ⟨some "t2", some "root", some "y", some "info", none⟩] ∧
    [(⟨some "t1", some "task", some "x", some "info", none⟩ : LogItem),
      ⟨some "t2", some "root", some "y", some "info", none⟩].filter
        (keepPred ["task"] none) =
      [⟨some "t1", some "task", some "x", some "info", none⟩] := by
  have h := C2_thm ["task"] none
    [⟨some "t1", some "task", some "x", some "info", none⟩,
     ⟨some "t2", some "root", some "y", some "info", none⟩] (by
      intro r hr
      rcases List.mem_cons.mp hr with rfl | hr2
      · rfl
      rcases List.mem_cons.mp hr2 with rfl | hr3
      · rfl
      · exact absurd hr3 (List.not_mem_nil r))
  exact ⟨h.1, h.2, rfl⟩

/-- C3 counterexample: the same log entry is printed on tick 1 and again
on tick 3, and the stored cutoff goes `some "t1"`, then `none` (reset by
the failed log fetch of tick 2), then `some "t1"` again — so the cutoff
is not monotonically non-decreasing and an already-printed entry is
re-printed. -/
theorem C3_cex :
    (monitor_dag ["task"] initMonState
        [.tick (some "running") [⟨some "A", some "running"⟩]
          (fun _ => some [⟨some "t1", some "task", some "a", some "info", none⟩]),
         .tick (some "running") [⟨some "A", some "running"⟩] (fun _ => none),
         .tick (some "running") [⟨some "A", some "running"⟩]
          (fun _ => some [⟨some "t1", some "task", some "a", some "info", none⟩])]).printed.count
      (Line.logLine (some "A") "t1" "INFO" "a") = 2 ∧
    (monitor_dag ["task"] initMonState
        [.tick (some "running") [⟨some "A", some "running"⟩]
          (fun _ => some [⟨some "t1", some "task", some "a", some "info", none⟩]),
         .tick (some "running") [⟨some "A", some "running"⟩] (fun _ => none),
         .tick (some "running") [⟨some "A", some "running"⟩]
          (fun _ => some [⟨some "t1", some "task", some "a", some "info", none⟩])]).trace.map
      (fun e => dget e.post.task_log_cutoffs (some "A")) = [some "t1", none, some "t1"] :=
  ⟨rfl, rfl⟩

/-- C3 (amended): provided a non-empty source filter is configured and
every tick's fetches succeed with well-formed log lists (each entry has a
non-empty timestamp and a level, lists non-decreasing by timestamp in
list order), then across every sequence of Monitor polls the stored
cutoff for any given task is monotonically non-decreasing, and every log
entry printed for a task on a later tick is strictly newer than every
entry printed for that task on an earlier tick (so no printed entry is
ever re-printed). -/
theorem C3_thm (ls : List String) (script : List TickInput) (hls : ls ≠ [])
    (hscript : ∀ inp ∈ script, GoodTick inp) :
    (∀ t, (dget initMonState.task_log_cutoffs t ::
      (monitor_dag ls initMonState script).trace.map
        (fun e => dget e.post.task_log_cutoffs t)).Pairwise cutLE) ∧
    (∀ t, ((monitor_dag ls initMonState script).trace.map
      (fun e => printedTsFor t e.lines)).Pairwise
        (fun L1 L2 => ∀ a ∈ L1, ∀ b ∈ L2, a < b)) := by
  have h := monitor_dag_mono ls hls script initMonState hscript (fun t => trivial)
  exact ⟨h.1, h.2.2.2⟩

/-- C3 witness: a two-tick run (task running, then the run and the task
terminal) with successful, ordered log fetches. -/
theorem C3_witness :
    (∀ t, (dget initMonState.task_log_cutoffs t ::
      (monitor_dag ["task"] initMonState
        [.tick (some "running") [⟨some "A", some "running"⟩]
          (fun _ => some [⟨some "t1", some "task", some "a", some "info", none⟩]),
         .tick (some "success") [⟨some "A", some "success"⟩]
          (fun _ => some [⟨some "t1", some "task", some "a", some "info", none⟩,
            ⟨some "t2", some "task", some "b", some "info", none⟩])]).trace.map
        (fun e => dget e.post.task_log_cutoffs t)).Pairwise cutLE) ∧
    (∀ t, ((monitor_dag ["task"] initMonState
        [.tick (some "running") [⟨some "A", some "running"⟩]
          (fun _ => some [⟨some "t1", some "task", some "a", some "info", none⟩]),
         .tick (some "success") [⟨some "A", some "success"⟩]
          (fun _ => some [⟨some "t1", some "task", some "a", some "info", none⟩,
            ⟨some "t2", some "task", some "b", some "info", none⟩])]).trace.map
      (fun e => printedTsFor t e.lines)).Pairwise
        (fun L1 L2 => ∀ a ∈ L1, ∀ b ∈ L2, a < b)) := by
  apply C3_thm ["task"] _ (by decide)
  intro inp hinp
  rcases List.mem_cons.mp hinp with rfl | hinp2
  · intro u
    refine ⟨_, rfl, ?_, by decide⟩
    intro r hr
    rcases List.mem_singleton.mp hr with rfl
    exact ⟨rfl, by decide, rfl⟩
  rcases List.mem_cons.mp hinp2 with rfl | hinp3
  · intro u
    refine ⟨_, rfl, ?_, by decide⟩
    intro r hr
    rcases List.mem_cons.mp hr with rfl | hr2
    · exact ⟨rfl, by decide, rfl⟩
    rcases List.mem_singleton.mp hr2 with rfl
    exact ⟨rfl, by decide, rfl⟩
  · exact absurd hinp3 (List.not_mem_nil inp)

/-- C4: for every tick of the Monitor loop, an error raised while
fetching the Run status or the task-instance list is caught, the
monitoring diagnostic is printed, and the loop aborts at exactly that
tick without retrying (the inputs after the failing tick are never
processed); by contrast, a script without status/task-list fetch failures
never makes the loop abort, whatever its log fetches do. -/
theorem C4_thm (ls : List String) (st : MonState) (pre rest : List TickInput)
    (hpre : ∀ inp ∈ pre, NonTerminalTick inp) :
    ((monitor_dag ls st (pre ++ .fetchFail :: rest)).outcome = .aborted ∧
     (monitor_dag ls st (pre ++ .fetchFail :: rest)).trace.length = pre.length + 1 ∧
     (∃ e, (monitor_dag ls st (pre ++ .fetchFail :: rest)).trace.getLast? = some e ∧
        e.lines = [.monitorDiag])) ∧
    (∀ (st2 : MonState) (script2 : List TickInput),
      (∀ inp ∈ script2, isFetchFail inp = false) →
      ((monitor_dag ls st2 script2).outcome == Outcome.aborted) = false) := by
  constructor
  · rcases monitor_dag_append ls pre st (.fetchFail :: rest) hpre with ⟨st2, tr0, hlen, heq⟩
    rw [heq]
    have hstep : monitor_dag ls st2 (.fetchFail :: rest) =
        { trace := [{ pre := st2, post := st2, lines := [.monitorDiag] }]
          outcome := .aborted } := rfl
    rw [hstep]
    exact ⟨rfl, by simp [hlen],
      ⟨{ pre := st2, post := st2, lines := [.monitorDiag] },
        by simp [List.getLast?_concat], rfl⟩⟩
  · intro st2 script2 h2
    exact monitor_no_abort ls script2 st2 h2

/-- C4 witness: one non-terminal tick, then a status/task-list fetch
failure: the loop aborts at tick 2. -/
theorem C4_witness :
    ((monitor_dag ["root", "task"] initMonState
        ([.tick (some "running") [] (fun _ => none)] ++ .fetchFail :: [])).outcome =
          .aborted ∧
     (monitor_dag ["root", "task"] initMonState
        ([.tick (some "running") [] (fun _ => none)] ++ .fetchFail :: [])).trace.length =
          [TickInput.tick (some "running") [] (fun _ => none)].length + 1 ∧
     (∃ e, (monitor_dag ["root", "task"] initMonState
        ([.tick (some "running") [] (fun _ => none)] ++ .fetchFail :: [])).trace.getLast? =
          some e ∧ e.lines = [.monitorDiag])) ∧
    (∀ (st2 : MonState) (script2 : List TickInput),
      (∀ inp ∈ script2, isFetchFail inp = false) →
      ((monitor_dag ["root", "task"] st2 script2).outcome == Outcome.aborted) = false) := by
  apply C4_thm
  intro inp hinp
  rcases List.mem_singleton.mp hinp with rfl
  exact (by decide : optMem (some "running") completed_states = false)

/-- C5: the Monitor loop terminates normally, printing the completion
message, exactly at the end of the first tick whose fetched Run state is
in `completed_states`, regardless of the individual task states and
without waiting for every task to enter the logged-tasks set. -/
theorem C5_thm (ls : List String) (st : MonState) (pre : List TickInput)
    (rs : Option String) (tasks : List TaskObs)
    (logs : Option String → Option (List LogItem)) (rest : List TickInput)
    (hpre : ∀ inp ∈ pre, NonTerminalTick inp)
    (hterm : optMem rs completed_states = true) :
    (monitor_dag ls st (pre ++ .tick rs tasks logs :: rest)).outcome = .finished rs ∧
    (monitor_dag ls st (pre ++ .tick rs tasks logs :: rest)).trace.length = pre.length + 1 ∧
    ∃ e, (monitor_dag ls st (pre ++ .tick rs tasks logs :: rest)).trace.getLast? = some e ∧
      e.lines.getLast? = some (.completion rs) := by
  rcases monitor_dag_append ls pre st (.tick rs tasks logs :: rest) hpre with ⟨st2, tr0, hlen, heq⟩
  rw [heq]
  have hstep : monitor_dag ls st2 (.tick rs tasks logs :: rest) =
      { trace := [{ pre := st2, post := (processTasks ls logs st2 tasks).st
                    lines := (processTasks ls logs st2 tasks).lines ++ [.completion rs] }]
        outcome := .finished rs } := by
    simp only [monitor_dag, hterm, if_true]
  rw [hstep]
  exact ⟨rfl, by simp [hlen],
    ⟨{ pre := st2, post := (processTasks ls logs st2 tasks).st
       lines := (processTasks ls logs st2 tasks).lines ++ [.completion rs] },
      by simp [List.getLast?_concat], by simp [List.getLast?_concat]⟩⟩

/-- C5 witness: one non-terminal tick, then a tick with terminal run
state `"success"` while its only task is still `"queued"` (not yet in the
logged-tasks set): the loop still terminates at that tick, printing the
completion message. -/
theorem C5_witness :
    (monitor_dag ["task"] initMonState
      ([.tick (some "running") [] (fun _ => none)] ++
        .tick (some "success") [⟨some "A", some "queued"⟩] (fun _ => none) :: [])).outcome =
        .finished (some "success") ∧
    (monitor_dag ["task"] initMonState
      ([.tick (some "running") [] (fun _ => none)] ++
        .tick (some "success") [⟨some "A", some "queued"⟩] (fun _ => none) :: [])).trace.length =
        [TickInput.tick (some "running") [] (fun _ => none)].length + 1 ∧
    ∃ e, (monitor_dag ["task"] initMonState
      ([.tick (some "running") [] (fun _ => none)] ++
        .tick (some "success") [⟨some "A", some "queued"⟩] (fun _ => none) :: [])).trace.getLast? =
        some e ∧ e.lines.getLast? = some (.completion (some "success")) := by
  apply C5_thm ["task"] initMonState _ _ _ _ _ _ (by decide)
  intro inp hinp
  rcases List.mem_singleton.mp hinp with rfl
  exact (by decide : optMem (some "running") completed_states = false)

/-- C6: a task id is in the logged-tasks set after a tick iff it was
already there or some task instance of the tick carries it with a
terminal state; the set stays duplicate-free (each task is added at most
once); a task already in the set gets no Log Tailer call (it is skipped);
and a task added during a tick had a Log Tailer call in that same tick
(at its terminal state observation). -/
theorem C6_thm (ls : List String) (logs : Option String → Option (List LogItem))
    (st : MonState) (tasks : List TaskObs) :
    (∀ tid, tid ∈ (processTasks ls logs st tasks).st.logged_tasks ↔
      (tid ∈ st.logged_tasks ∨
        ∃ u ∈ tasks, u.task_id = tid ∧ optMem u.state completed_states = true)) ∧
    (st.logged_tasks.Nodup → (processTasks ls logs st tasks).st.logged_tasks.Nodup) ∧
    (∀ tid, tid ∈ st.logged_tasks → tid ∉ (processTasks ls logs st tasks).calls) ∧
    (∀ tid, tid ∉ st.logged_tasks → tid ∈ (processTasks ls logs st tasks).st.logged_tasks →
      tid ∈ (processTasks ls logs st tasks).calls) :=
  ⟨fun tid => processTasks_logged_iff ls logs tasks st tid,
   processTasks_logged_nodup ls logs tasks st,
   fun tid => processTasks_skip ls logs tasks st tid,
   fun tid => processTasks_called_of_added ls logs tasks st tid⟩

/-- C6 witness: task `B` is already logged (skipped, no tailer call);
task `A` is observed terminal, gets a tailer call, and is added exactly
once. -/
theorem C6_witness :
    some "A" ∈ (processTasks ["task"] (fun _ => none) ⟨[some "B"], []⟩
      [⟨some "A", some "success"⟩, ⟨some "B", some "running"⟩]).st.logged_tasks ∧
    (processTasks ["task"] (fun _ => none) ⟨[some "B"], []⟩
      [⟨some "A", some "success"⟩, ⟨some "B", some "running"⟩]).st.logged_tasks.Nodup ∧
    some "B" ∉ (processTasks ["task"] (fun _ => none) ⟨[some "B"], []⟩
      [⟨some "A", some "success"⟩, ⟨some "B", some "running"⟩]).calls ∧
    some "A" ∈ (processTasks ["task"] (fun _ => none) ⟨[some "B"], []⟩
      [⟨some "A", some "success"⟩, ⟨some "B", some "running"⟩]).calls := by
  have h := C6_thm ["task"] (fun _ => none) ⟨[some "B"], []⟩
    [⟨some "A", some "success"⟩, ⟨some "B", some "running"⟩]
  have hA : some "A" ∈ (processTasks ["task"] (fun _ => none) ⟨[some "B"], []⟩
      [⟨some "A", some "success"⟩, ⟨some "B", some "running"⟩]).st.logged_tasks :=
    (h.1 (some "A")).mpr (Or.inr ⟨⟨some "A", some "success"⟩,
      List.mem_cons_self _ _, rfl, by decide⟩)
  exact ⟨hA, h.2.1 (by decide), h.2.2.1 _ (by decide), h.2.2.2 _ (by decide) hA⟩

/-- C7 counterexample: the log fetch succeeds, a single entry is kept
(logger allowed, no cutoff), its list-order-last timestamp is `"t1"`, yet
the call returns `None`, not `some "t1"`: the kept entry has no `level`,
so rendering raises and the broad handler returns `None`. -/
theorem C7_cex :
    ((printTaskLogs ["task"] (some "A") none
        (some [⟨some "t1", some "task", some "boom", none, none⟩])).ret == some "t1") = false ∧
    (printTaskLogs ["task"] (some "A") none
        (some [⟨some "t1", some "task", some "boom", none, none⟩])).ret = none :=
  ⟨rfl, rfl⟩

/-- C7 (amended): for every call of the Log Tailer in which the log fetch
succeeds, every entry has a timestamp, and every kept entry has a level
(so that no exception is raised), the returned value equals the timestamp
of the last kept entry in received list order (not necessarily the
chronologically greatest), or the previous cutoff unchanged when no
entries were kept. -/
theorem C7_thm (ls : List String) (tid : Option String) (c : Option String)
    (entries : List LogItem)
    (hts : ∀ r ∈ entries, r.timestamp.isSome = true)
    (hlv : ∀ r ∈ entries.filter (keepPred ls c), r.level.isSome = true) :
    (printTaskLogs ls tid c (some entries)).ret =
      match (entries.filter (keepPred ls c)).getLast? with
      | some last => last.timestamp
      | none => c := by
  rw [printTaskLogs_eq ls tid c entries hts hlv]

/-- C7 witness: with entries received as `[ts "t3", ts "t1"]` (not in
chronological order) and no cutoff, the returned cutoff is `"t1"` — the
list-order-last kept entry, not the chronologically greatest. -/
theorem C7_witness :
    (printTaskLogs ["task"] (some "A") none
      (some [⟨some "t3", some "task", some "x", some "info", none⟩,
        ⟨some "t1", some "task", some "y", some "info", none⟩])).ret = some "t1" := by
  have h := C7_thm ["task"] (some "A") none
    [⟨some "t3", some "task", some "x", some "info", none⟩,
     ⟨some "t1", some "task", some "y", some "info", none⟩]
    (by
      intro r hr
      rcases List.mem_cons.mp hr with rfl | hr2
      · rfl
      rcases List.mem_singleton.mp hr2 with rfl
      · rfl)
    (by
      intro r hr
      have h2 := List.mem_of_mem_filter hr
      rcases List.mem_cons.mp h2 with rfl | hr2
      · rfl
      rcases List.mem_singleton.mp hr2 with rfl
      · rfl)
  exact h.trans rfl

/-- C8: on a successful, well-formed fetch the Log Tailer prints, for the
kept entries in received order, exactly the lines
`timestamp - task_id: [LEVEL] message` where the message follows the
specification's rule (`claimMessage`): `event: exc_value` when the level
is `"error"` case-insensitively and a truthy nested `error_detail[0]
.exc_value` exists, plain `event` otherwise; and every lookup failure
while extracting that nested value (missing `error_detail`, empty array,
missing `exc_value`) degrades the message to plain `event`. -/
theorem C8_thm (ls : List String) (tid : Option String) (c : Option String)
    (entries : List LogItem)
    (hts : ∀ r ∈ entries, r.timestamp.isSome = true)
    (hlv : ∀ r ∈ entries.filter (keepPred ls c), r.level.isSome = true) :
    ((printTaskLogs ls tid c (some entries)).printed.map lineText =
      (entries.filter (keepPred ls c)).map (fun r =>
        (r.timestamp.getD "") ++ " - " ++ pyStr tid ++ ": ["
          ++ strUpper (r.level.getD "") ++ "] " ++ claimMessage r)) ∧
    (∀ r : LogItem, r.error_detail = none → claimMessage r = pyStr r.event) ∧
    (∀ r : LogItem, r.error_detail = some [] → claimMessage r = pyStr r.event) ∧
    (∀ (r : LogItem) (ds : List ErrDetail),
      r.error_detail = some ({ exc_value := none } :: ds) →
        claimMessage r = pyStr r.event) := by
  refine ⟨?_, ?_, ?_, ?_⟩
  · rw [printTaskLogs_eq ls tid c entries hts hlv]
    simp only [List.map_map]
    have hfun : (lineText ∘ renderLineOf tid) = fun r : LogItem =>
        (r.timestamp.getD "") ++ " - " ++ pyStr tid ++ ": ["
          ++ strUpper (r.level.getD "") ++ "] " ++ claimMessage r :=
      funext fun r => lineText_renderLineOf tid r
    rw [hfun]
  · intro r h
    simp [claimMessage, extractExcValue, h]
  · intro r h
    simp [claimMessage, extractExcValue, h]
  · intro r ds h
    simp [claimMessage, extractExcValue, h]

/-- C8 witness: the specification's example — an `ERROR` entry with
`error_detail:[{exc_value:"oops"}]` renders `boom: oops`; the same entry
with `error_detail:[]` renders plain `boom`. -/
theorem C8_witness :
    (printTaskLogs ["task"] (some "A") none
      (some [⟨some "2024", some "task", some "boom", some "ERROR",
        some [⟨some "oops"⟩]⟩])).printed.map lineText =
      ["2024 - A: [ERROR] boom: oops"] ∧
    (printTaskLogs ["task"] (some "A") none
      (some [⟨some "2024", some "task", some "boom", some "ERROR",
        some []⟩])).printed.map lineText =
      ["2024 - A: [ERROR] boom"] := by
  constructor
  · have h := C8_thm ["task"] (some "A") none
      [⟨some "2024", some "task", some "boom", some "ERROR", some [⟨some "oops"⟩]⟩]
      (by
        intro r hr
        rcases List.mem_singleton.mp hr with rfl
        · rfl)
      (by
        intro r hr
        rcases List.mem_singleton.mp (List.mem_of_mem_filter hr) with rfl
        · rfl)
    exact h.1.trans rfl
  · have h := C8_thm ["task"] (some "A") none
      [⟨some "2024", some "task", some "boom", some "ERROR", some []⟩]
      (by
        intro r hr
        rcases List.mem_singleton.mp hr with rfl
        · rfl)
      (by
        intro r hr
        rcases List.mem_singleton.mp (List.mem_of_mem_filter hr) with rfl
        · rfl)
    exact h.1.trans rfl

/-- C9: when the authentication step fails (non-2xx status from bad
credentials, network error, or an unparsable body — any exception in
lines 26-31 of `src/main.py`, re-wrapped by lines 32-33), the process
prints the top-level error and exits with code 1, with no trigger output,
no run-id print and no monitor activity. -/
theorem C9_thm (trig : Except Unit (Option String)) (ls : List String)
    (script : List TickInput) :
    airflow_main (.error ()) trig ls script = (1, [Line.topError]) := rfl

/-- C10: whenever the body of `_print_task_logs` raises anywhere — the
fetch itself, the filtering comprehension, or the rendering loop (e.g. a
kept entry without a `level` or without a `timestamp`), possibly after
some lines were already printed — the single broad handler catches it,
the fetch-failure diagnostic naming the task is printed last, and the
function returns `None`; the Monitor then stores `None` as that task's
new cutoff. -/
theorem C10_thm :
    (∀ (ls : List String) (tid c : Option String) (fetch : Option (List LogItem)),
      tailRaises ls c fetch = true →
      (printTaskLogs ls tid c fetch).ret = none ∧
      (printTaskLogs ls tid c fetch).printed.getLast? = some (.logFetchDiag tid)) ∧
    (∀ (ls : List String) (logs : Option String → Option (List LogItem))
      (st : MonState) (task : TaskObs),
      task.task_id ∉ st.logged_tasks →
      optMem task.state (running_states ++ completed_states) = true →
      tailRaises ls (dget st.task_log_cutoffs task.task_id) (logs task.task_id) = true →
      dget (processTask ls logs st task).st.task_log_cutoffs task.task_id = none) :=
  ⟨printTaskLogs_raises, processTask_stores_none⟩

/-- C10 witness: a fetch succeeds with one renderable entry followed by
one entry without a `level`: the first line is printed, then rendering
raises, the diagnostic is printed, `None` is returned, and the Monitor
stores `None` as the task's cutoff. -/
theorem C10_witness :
    (printTaskLogs ["task"] (some "A") none
      (some [⟨some "t1", some "task", some "a", some "INFO", none⟩,
        ⟨some "t2", some "task", some "b", none, none⟩])).ret = none ∧
    (printTaskLogs ["task"] (some "A") none
      (some [⟨some "t1", some "task", some "a", some "INFO", none⟩,
        ⟨some "t2", some "task", some "b", none, none⟩])).printed.getLast? =
      some (.logFetchDiag (some "A")) ∧
    (printTaskLogs ["task"] (some "A") none
      (some [⟨some "t1", some "task", some "a", some "INFO", none⟩,
        ⟨some "t2", some "task", some "b", none, none⟩])).printed =
      [.logLine (some "A") "t1" "INFO" "a", .logFetchDiag (some "A")] ∧
    dget (processTask ["task"]
      (fun _ => some [⟨some "t1", some "task", some "a", some "INFO", none⟩,
        ⟨some "t2", some "task", some "b", none, none⟩])
      initMonState ⟨some "A", some "running"⟩).st.task_log_cutoffs (some "A") = none := by
  refine ⟨(C10_thm.1 ["task"] (some "A") none _ (by decide)).1,
    (C10_thm.1 ["task"] (some "A") none _ (by decide)).2, rfl,
    C10_thm.2 ["task"] _ initMonState ⟨some "A", some "running"⟩
      (by decide) (by decide) (by decide)⟩
